import Mathlib

/-!
# Verification of the product search engine (`search.py`, `utils.py`)

A shallow embedding of the TF-IDF + fuzzy product search engine.  Machine
floats of the Python source are idealised as `ℚ` (for the purely rational
computations: numeric parsing, fuzzy ratio, prices, ratings) and as `ℝ`
(where `math.sqrt` / `math.log` enter: TF-IDF weights, norms, scores).
Wall-clock measurements (`time.perf_counter`) are passed in as an arbitrary
real parameter.  Python `dict`s keyed by strings are embedded as association
lists (`List (String × _)`) or as `String → Option _` functions.
-/

namespace SearchEngine

/-! ## String primitives

Python's `str.strip`, single-character `str.replace`, `in`, and
`str.split` are embedded as structurally recursive functions on the
character list of a string (the core `String` versions are extensionally
the same but are defined by well-founded recursion over byte positions,
which the kernel cannot evaluate). -/

/-- Python `str.strip()`: drop leading and trailing whitespace. -/
def stripStr (s : String) : String :=
  String.mk (((s.data.dropWhile Char.isWhitespace).reverse.dropWhile
    Char.isWhitespace).reverse)

/-- Python `s.replace(c, "")` for a single character `c`. -/
def removeChar (c : Char) (s : String) : String :=
  String.mk (s.data.filter fun x => x ≠ c)

/-- Python `s.replace(c, d)` for single characters. -/
def replaceChar (c d : Char) (s : String) : String :=
  String.mk (s.data.map fun x => if x = c then d else x)

/-- Python `c in s`. -/
def containsChar (s : String) (c : Char) : Bool :=
  s.data.contains c

/-- Split a character list at every separator occurrence (keeping empty
chunks, like Python `s.split(sep)`). -/
def splitChar (sep : Char) : List Char → List (List Char)
  | [] => [[]]
  | c :: cs =>
    let r := splitChar sep cs
    if c = sep then [] :: r
    else
      match r with
      | h :: t => (c :: h) :: t
      | [] => [[c]]

/-- Python `s.split(sep)` for a single-character separator. -/
def splitOnChar (sep : Char) (s : String) : List String :=
  (splitChar sep s.data).map String.mk

/-! ## `utils.py`: text normalisation -/

/-- The stopword set `STOPWORDS_FR_EN` of `utils.py`. -/
def STOPWORDS_FR_EN : List String :=
  ["a", "an", "and", "au", "aux", "avec", "ce", "ces", "dans", "de", "des",
   "du", "elle", "en", "et", "for", "il", "ils", "in", "is", "la", "le",
   "les", "mais", "of", "on", "or", "ou", "par", "pas", "pour", "que",
   "qui", "sur", "the", "to", "un", "une", "with"]

/-- The synonym table `SYNONYMS` of `utils.py`. -/
def SYNONYMS : List (String × String) :=
  [("basket", "chaussure"), ("baskets", "chaussure"), ("sneaker", "chaussure"),
   ("sneakers", "chaussure"), ("tel", "telephone"), ("mobile", "telephone"),
   ("smartphone", "telephone"), ("ordi", "ordinateur"), ("laptop", "ordinateur"),
   ("notebook", "ordinateur"), ("cadeaux", "cadeau"), ("anniv", "anniversaire"),
   ("runing", "running"), ("chaussur", "chaussure")]

/-- Accent folding for the Latin-1 letters, both cases.  Embeds the effect of
`str.lower()` followed by `strip_accents` (Unicode NFD + dropping combining
marks) of `utils.py` on these letters; NFD beyond the Latin-1 range is not
modelled (such characters are replaced by a space downstream anyway unless
they are plain `[a-z0-9]`). -/
def foldAccent (c : Char) : Char :=
  if c ∈ ['à', 'â', 'ä', 'á', 'ã', 'å', 'À', 'Â', 'Ä', 'Á', 'Ã', 'Å'] then 'a'
  else if c ∈ ['ç', 'Ç'] then 'c'
  else if c ∈ ['é', 'è', 'ê', 'ë', 'É', 'È', 'Ê', 'Ë'] then 'e'
  else if c ∈ ['î', 'ï', 'í', 'ì', 'Î', 'Ï', 'Í', 'Ì'] then 'i'
  else if c ∈ ['ñ', 'Ñ'] then 'n'
  else if c ∈ ['ô', 'ö', 'ó', 'ò', 'õ', 'Ô', 'Ö', 'Ó', 'Ò', 'Õ'] then 'o'
  else if c ∈ ['ù', 'û', 'ü', 'ú', 'Ù', 'Û', 'Ü', 'Ú'] then 'u'
  else if c ∈ ['ÿ', 'ý', 'Ý'] then 'y'
  else c.toLower

/-- Does the regex class `[a-z0-9]` keep this character? -/
def keepChar (c : Char) : Bool :=
  ('a' ≤ c && c ≤ 'z') || ('0' ≤ c && c ≤ '9')

/-- `normalize_text` of `utils.py` (with `keep_spaces = True`): lowercase,
fold accents, replace every character outside `[a-z0-9\s]` by a space, then
collapse whitespace runs to single spaces and trim.  The two regex passes of
the source are rendered as a per-character substitution followed by
split/filter/join, which computes the same string. -/
def normalizeText (text : String) : String :=
  let substituted : List Char :=
    text.data.map fun c =>
      let d := foldAccent c
      if keepChar d then d else ' '
  String.intercalate " " ((splitOnChar ' ' (String.mk substituted)).filter (· ≠ ""))

/-- `normalize_text` with `keep_spaces = False`: as above, then remove all
spaces (used only for column-name matching). -/
def normalizeNoSpaces (text : String) : String :=
  removeChar ' ' (normalizeText text)

/-- `tokenize` of `utils.py`: normalise, split on whitespace, apply the
synonym table, drop stopwords and tokens of length ≤ 1. -/
def tokenize (text : String) : List String :=
  let normalized := normalizeText text
  ((splitOnChar ' ' normalized).filter (· ≠ "")).filterMap fun token =>
    let mapped := (SYNONYMS.lookup token).getD token
    if mapped ∉ STOPWORDS_FR_EN ∧ 1 < mapped.length then some mapped else none

/-! ## `utils.py`: numeric parsing -/

/-- Value of a digit string (most significant first). -/
def digitsVal (s : List Char) : ℕ :=
  s.foldl (fun acc c => acc * 10 + (c.toNat - ('0').toNat)) 0

/-- Python `float(s)` restricted to strings over the alphabet `[0-9.\-]`
(the only characters remaining after the final regex of `parse_numeric`):
an optional leading minus, then digits with at most one decimal point and at
least one digit in total.  Anything else fails (→ `none`). -/
def parseDecimal (s : List Char) : Option ℚ :=
  let (neg, rest) :=
    match s with
    | '-' :: r => (true, r)
    | r => (false, r)
  if rest.any (fun c => c = '-') then none
  else
    let intPart := rest.takeWhile (· ≠ '.')
    let dotFrac := rest.dropWhile (· ≠ '.')
    match dotFrac with
    | [] =>
        if intPart ≠ [] ∧ intPart.all Char.isDigit then
          some (if neg then -(digitsVal intPart : ℚ) else (digitsVal intPart : ℚ))
        else none
    | _ :: frac =>
        if frac.any (fun c => c = '.') then none
        else if (intPart ≠ [] ∨ frac ≠ []) ∧ intPart.all Char.isDigit ∧
                frac.all Char.isDigit then
          let v : ℚ := (digitsVal intPart : ℚ) + (digitsVal frac : ℚ) / (10 : ℚ) ^ frac.length
          some (if neg then -v else v)
        else none

/-- The part of a string after its first comma (Python `s.split(",")[1]`
when the string contains exactly one comma). -/
def afterComma (s : String) : String :=
  ((splitOnChar ',' s).getD 1 "")

/-- The final two steps of `parse_numeric`: strip every character outside
`[0-9.\-]` (the regex `re.sub(r"[^0-9.\-]", "", ...)`), fail on the empty,
`"-"` and `"."` remainders, then parse as a float. -/
def parseTail (cleaned : String) : Option ℚ :=
  let stripped := String.mk (cleaned.data.filter fun c => c.isDigit || c = '.' || c = '-')
  if stripped = "" ∨ stripped = "-" ∨ stripped = "." then none
  else parseDecimal stripped.data

/-- The cleaning prefix of `parse_numeric`: strip surrounding whitespace,
then remove internal spaces and percent signs. -/
def preClean (v : String) : String :=
  removeChar '%' (removeChar ' ' (stripStr v))

/-- `parse_numeric` of `utils.py`: strip surrounding whitespace, remove
internal spaces and percent signs; if the string has a comma but no period,
a single comma followed by at most two characters becomes a decimal point,
otherwise all commas are removed; then strip every character outside
`[0-9.\-]` and parse. -/
def parseNumeric (value : Option String) : Option ℚ :=
  match value with
  | none => none
  | some v =>
    let raw := stripStr v
    if raw = "" then none
    else
      let cleaned := preClean v
      let cleaned :=
        if containsChar cleaned ',' ∧ ¬ containsChar cleaned '.' then
          if (cleaned.data.count ',') = 1 ∧ (afterComma cleaned).length ≤ 2 then
            replaceChar ',' '.' cleaned
          else
            removeChar ',' cleaned
        else cleaned
      parseTail cleaned

/-! ## `utils.py`: column detection -/

/-- The candidate table `COLUMN_CANDIDATES` of `utils.py`. -/
def COLUMN_CANDIDATES : List (String × List String) :=
  [("title", ["title", "name", "product_name", "nom", "titre", "product"]),
   ("description", ["description", "desc", "details", "content"]),
   ("price", ["price", "selling_price", "prix", "amount", "cost"]),
   ("rating", ["rating", "average_rating", "note", "stars"]),
   ("image_url", ["image_url", "image", "images", "thumbnail", "photo"]),
   ("category", ["category", "categorie", "sub_category", "type", "department"]),
   ("brand", ["brand", "marque", "maker"]),
   ("url", ["url", "product_url", "link", "href"])]

/-- The resolved column mapping (`detect_columns` result): one entry per
canonical field, `none` when unresolved. -/
structure ColumnMap where
  title : Option String
  description : Option String
  price : Option String
  rating : Option String
  imageUrl : Option String
  category : Option String
  brand : Option String
  url : Option String
deriving DecidableEq

/-- One canonical field of `detect_columns`: the override wins when its
chosen column is available and non-empty (Python truthiness); otherwise the
first candidate whose normalised name matches an available header (the dict
comprehension `{normalize(h): h}` keeps the last header for a clashing key);
an empty-string override survives only when no candidate matches. -/
def detectOne (available : List String) (override : List (String × String))
    (canonical : String) (candidates : List String) : Option String :=
  let ov : Option String :=
    match override.lookup canonical with
    | some chosen => if chosen ∈ available then some chosen else none
    | none => none
  let fromCands : Option String :=
    candidates.findSome? fun cand =>
      (available.reverse).find? fun h => normalizeNoSpaces h = normalizeNoSpaces cand
  match ov with
  | some c => if c = "" then (fromCands <|> ov) else some c
  | none => fromCands

/-- `detect_columns` of `utils.py`. -/
def detectColumns (headers : List String) (override : List (String × String)) :
    ColumnMap :=
  let available := (headers.filter (· ≠ "")).map stripStr
  { title := detectOne available override "title"
      ["title", "name", "product_name", "nom", "titre", "product"]
    description := detectOne available override "description"
      ["description", "desc", "details", "content"]
    price := detectOne available override "price"
      ["price", "selling_price", "prix", "amount", "cost"]
    rating := detectOne available override "rating"
      ["rating", "average_rating", "note", "stars"]
    imageUrl := detectOne available override "image_url"
      ["image_url", "image", "images", "thumbnail", "photo"]
    category := detectOne available override "category"
      ["category", "categorie", "sub_category", "type", "department"]
    brand := detectOne available override "brand" ["brand", "marque", "maker"]
    url := detectOne available override "url"
      ["url", "product_url", "link", "href"] }

/-! ## `difflib.SequenceMatcher` (fuzzy title similarity)

`_fuzzy_score` of `search.py` calls `SequenceMatcher(None, q, t).ratio()`
from the Python standard library.  That library is not part of this
repository, so it is modelled from the spec: a character-level
longest-matching-blocks (Ratcliff-Obershelp) ratio — two times the total
matched characters divided by the total length of both strings — with
difflib's deterministic tie-break (the matching run ending earliest in the
first string, then earliest in the second).  difflib's junk heuristics
(`autojunk` for strings of length ≥ 200) are not modelled. -/

/-- Length of the longest common prefix of two character lists. -/
def commonPrefixLen : List Char → List Char → ℕ
  | x :: xs, y :: ys => if x = y then commonPrefixLen xs ys + 1 else 0
  | _, _ => 0

/-- Length of the maximal matching run ending at positions `(i, j)` of
`a`, `b` (the quantity difflib's `j2len` dynamic programming tracks). -/
def runEndingAt (a b : List Char) (i j : ℕ) : ℕ :=
  commonPrefixLen ((a.take (i + 1)).reverse) ((b.take (j + 1)).reverse)

/-- All end-position pairs in difflib scan order: ascending position in
`a`, then ascending position in `b`. -/
def blockPairs (a b : List Char) : List (ℕ × ℕ) :=
  (List.range a.length).flatMap fun i => (List.range b.length).map fun j => (i, j)

/-- The size of the longest matching run between `a` and `b`. -/
def maxRun (a b : List Char) : ℕ :=
  (((blockPairs a b).map fun p => runEndingAt a b p.1 p.2).foldr max 0)

/-- `find_longest_match` over whole strings, without junk: the first pair in
scan order achieving the maximal run size; returns
(start in `a`, start in `b`, size), with size 0 when nothing matches. -/
def bestBlock (a b : List Char) : ℕ × ℕ × ℕ :=
  let k := maxRun a b
  if k = 0 then (0, 0, 0)
  else
    match (blockPairs a b).find? fun p => runEndingAt a b p.1 p.2 = k with
    | some (i, j) => (i + 1 - k, j + 1 - k, k)
    | none => (0, 0, 0)

/-- Total matched characters of `get_matching_blocks`: recursively take the
longest matching block and recurse on both sides.  `fuel` bounds the
recursion depth (any value ≥ `a.length + b.length` is exact). -/
def rMatchesAux : ℕ → List Char → List Char → ℕ
  | 0, _, _ => 0
  | fuel + 1, a, b =>
    let t := bestBlock a b
    if t.2.2 = 0 then 0
    else
      t.2.2 + rMatchesAux fuel (a.take t.1) (b.take t.2.1) +
        rMatchesAux fuel (a.drop (t.1 + t.2.2)) (b.drop (t.2.1 + t.2.2))

/-- Total matched characters between two character lists. -/
def rMatches (a b : List Char) : ℕ := rMatchesAux (a.length + b.length) a b

/-- `SequenceMatcher(None, a, b).ratio()`: `2*M / (len a + len b)`, defined
as 1 when both strings are empty (difflib `_calculate_ratio`). -/
def smRatio (a b : String) : ℚ :=
  if a.length + b.length = 0 then 1
  else (2 * rMatches a.data b.data : ℚ) / ((a.length : ℚ) + (b.length : ℚ))

/-- Code-point lexicographic comparison of character lists (Python `<` on
strings). -/
def charListLt : List Char → List Char → Bool
  | [], [] => false
  | [], _ :: _ => true
  | _ :: _, [] => false
  | c :: cs, d :: ds => if c < d then true else if d < c then false else charListLt cs ds

/-- Python `a < b` on strings. -/
def strLtB (a b : String) : Bool := charListLt a.data b.data

/-- Insert into an ascending list (insertion-sort step). -/
def insertStr (x : String) : List String → List String
  | [] => [x]
  | y :: ys => if strLtB y x then y :: insertStr x ys else x :: y :: ys

/-- Python `sorted` on strings (code-point lexicographic order), as a
structural insertion sort. -/
def sortStrings (l : List String) : List String :=
  l.foldr insertStr []

/-- Python `sorted(set(l))`: distinct elements in ascending order. -/
def sortedDedup (l : List String) : List String :=
  sortStrings l.dedup

/-- `ProductSearchEngine._fuzzy_score`: 0 when the tokenized title is empty,
otherwise the `SequenceMatcher` ratio of the space-joined sorted unique
query tokens against the space-joined sorted unique title tokens. -/
def fuzzyScore (queryTokens : List String) (title : String) : ℚ :=
  let titleTokens := tokenize title
  if titleTokens = [] then 0
  else
    smRatio (String.intercalate " " (sortedDedup queryTokens))
      (String.intercalate " " (sortedDedup titleTokens))

/-! ## `search.py`: sparse vectors and cosine similarity -/

section RealDefs

open scoped Classical

/-- Python `vector.get(token, 0.0)` on a sparse weight vector. -/
noncomputable def dictGet (v : List (String × ℝ)) (t : String) : ℝ :=
  (v.lookup t).getD 0

/-- `sum(value * value for value in vector.values())`. -/
noncomputable def vecNormSq (v : List (String × ℝ)) : ℝ :=
  (v.map fun p => p.2 * p.2).sum

/-- The Euclidean norm `math.sqrt(...)` computed for each vector. -/
noncomputable def vecNorm (v : List (String × ℝ)) : ℝ :=
  Real.sqrt (vecNormSq v)

/-- `sum(weight * dvec.get(token, 0.0) for token, weight in qvec.items())`. -/
noncomputable def dotProd (qvec dvec : List (String × ℝ)) : ℝ :=
  (qvec.map fun p => p.2 * dictGet dvec p.1).sum

/-- `ProductSearchEngine._cosine_similarity`: 0 when either norm is 0,
otherwise the dot product divided by the product of the norms. -/
noncomputable def cosineSimilarity (qvec : List (String × ℝ)) (qnorm : ℝ)
    (dvec : List (String × ℝ)) (dnorm : ℝ) : ℝ :=
  if qnorm = 0 ∨ dnorm = 0 then 0
  else dotProd qvec dvec / (qnorm * dnorm)

/-! ## `search.py`: data model -/

/-- A product record as built by `load_data` (`price`/`rating` are the
`parse_numeric` results, absent when unparsable). -/
structure Product where
  id : ℕ
  title : String
  description : String
  category : String
  brand : String
  price : Option ℚ
  rating : Option ℚ
  imageUrl : String
  url : String
  searchableText : String
deriving DecidableEq

/-- The `SearchResult` dataclass of `search.py`. -/
structure SearchResult where
  product : Product
  score : ℝ
  tfidfScore : ℝ
  fuzzyScore : ℝ
  categoryBonus : ℝ
  matchedTokens : List String

/-- The diagnostics dict returned by `search`.  The wall-clock query latency
is not modelled (kept as the field `queryTimeMs`, always 0 here). -/
structure Diagnostics where
  queryTokens : List String
  indexBuildMs : ℝ
  queryTimeMs : ℝ
  totalProducts : ℕ
  topScores : Option (List (String × ℝ × ℝ × ℝ × ℝ))

/-- The mutable state of a `ProductSearchEngine` instance: exactly the six
fields assigned by `load_data` / `_build_tfidf`.  The IDF dict is embedded
as a partial function from tokens. -/
structure Engine where
  products : List Product
  docVectors : List (List (String × ℝ))
  docNorms : List ℝ
  idf : String → Option ℝ
  categories : List String
  lastIndexBuildMs : ℝ

/-- Python `round(x, n)`.  Ties (exactly half an ulp of the last kept digit)
round half-up here rather than Python's half-to-even; this function is only
applied to wall-clock measurements, which are arbitrary reals in the model. -/
noncomputable def roundTo (ndigits : ℕ) (x : ℝ) : ℝ :=
  (round (x * 10 ^ ndigits) : ℤ) / 10 ^ ndigits

/-! ## `search.py`: index construction (`load_data`, `_build_tfidf`) -/

/-- Insertion-ordered deduplication: the iteration order of the keys of a
Python `Counter`/`dict` built by scanning a list (first occurrence wins). -/
def firstDedup (l : List String) : List String :=
  l.foldl (fun acc t => if t ∈ acc then acc else acc ++ [t]) []

/-- Document frequency: the number of documents containing a token at least
once (`doc_freq` of `_build_tfidf`, built from each document's token set). -/
def docFreq (docs : List (List String)) (t : String) : ℕ :=
  (docs.filter fun d => t ∈ d).length

/-- The IDF dict of `_build_tfidf`: defined exactly on the tokens with
non-zero document frequency and mapping each to
`log((1 + N) / (1 + df)) + 1.0`. -/
noncomputable def idfOf (docs : List (List String)) : String → Option ℝ := fun t =>
  if docFreq docs t = 0 then none
  else some (Real.log ((1 + (docs.length : ℝ)) / (1 + (docFreq docs t : ℝ))) + 1)

/-- One document's sparse TF-IDF vector: for each distinct token,
`(count / (len or 1)) * idf.get(token, 0.0)`. -/
noncomputable def docVectorOf (idf : String → Option ℝ) (tokens : List String) :
    List (String × ℝ) :=
  let total : ℝ := if tokens.length = 0 then 1 else (tokens.length : ℝ)
  (firstDedup tokens).map fun t =>
    (t, ((tokens.count t : ℝ) / total) * ((idf t).getD 0))

/-- A CSV row as produced by `csv.DictReader`: a string-keyed record. -/
abbrev Row := List (String × String)

/-- `row.get(k, "")`. -/
def rowGetD (row : Row) (k : String) : String := (row.lookup k).getD ""

/-- `row.get(columns[f], "") if columns[f] else ""` (Python truthiness:
a `None` or empty-string column resolves to `""`). -/
def fieldStr (col : Option String) (row : Row) : String :=
  match col with
  | some c => if c = "" then "" else rowGetD row c
  | none => ""

/-- `row.get(columns[f]) if columns[f] else None`. -/
def fieldOpt (col : Option String) (row : Row) : Option String :=
  match col with
  | some c => if c = "" then none else row.lookup c
  | none => none

/-- Python truthiness of an optional string. -/
def truthy : Option String → Bool
  | none => false
  | some s => s ≠ ""

/-- The loop body of `load_data` for one row: `none` when the trimmed title
is empty (the row is skipped), otherwise the product record (with `id` the
row's position among *all* rows) and its token list. -/
def processRow (cols : ColumnMap) (idx : ℕ) (row : Row) :
    Option (Product × List String) :=
  let title := stripStr (fieldStr cols.title row)
  if title = "" then none
  else
    let description := stripStr (fieldStr cols.description row)
    let category := stripStr (fieldStr cols.category row)
    let brand := stripStr (fieldStr cols.brand row)
    let imageUrl := stripStr (fieldStr cols.imageUrl row)
    let url := stripStr (fieldStr cols.url row)
    let price := parseNumeric (fieldOpt cols.price row)
    let rating := parseNumeric (fieldOpt cols.rating row)
    let mergedTokens :=
      tokenize (String.intercalate " "
        (([title, description, category, brand]).filter (· ≠ "")))
    some ({ id := idx, title := title, description := description,
            category := category, brand := brand, price := price,
            rating := rating, imageUrl := imageUrl, url := url,
            searchableText := String.intercalate " " mergedTokens },
          mergedTokens)

/-- The kept rows of `load_data`, in source order, with their token lists. -/
def keptRows (cols : ColumnMap) (rows : List Row) : List (Product × List String) :=
  rows.enum.filterMap fun ir => processRow cols ir.1 ir.2

/-- The engine state published by a successful `load_data`: the six field
assignments at the end of the method (`_build_tfidf` inlined). -/
noncomputable def buildEngine (cols : ColumnMap) (rows : List Row) (elapsedMs : ℝ) :
    Engine :=
  let kept := keptRows cols rows
  let tokenizedDocs := kept.map (·.2)
  let idf := idfOf tokenizedDocs
  let vectors := tokenizedDocs.map (docVectorOf idf)
  { products := kept.map (·.1)
    docVectors := vectors
    docNorms := vectors.map vecNorm
    idf := idf
    categories := sortStrings (((kept.map (·.1.category)).filter (· ≠ "")).dedup)
    lastIndexBuildMs := elapsedMs }

/-- `ProductSearchEngine.load_data`, as a state transformer on the engine:
the input CSV is the header list plus the rows; `elapsedMs` stands for the
wall-clock duration measurement.  Mirrors the statement order of the
source: all three `raise` sites execute before any field of `self` is
assigned, so an error leaves the engine exactly as it was. -/
noncomputable def loadData (e : Engine) (override : List (String × String))
    (headers : List String) (rows : List Row) (elapsedMs : ℝ) :
    Engine × Except String Unit :=
  if headers = [] then
    (e, .error "Le fichier CSV ne contient pas d\x27en-têtes de colonnes.")
  else
    let cols := detectColumns headers override
    if truthy cols.title = false then
      (e, .error "Impossible de détecter une colonne titre. Configurez COLUMN_MAP_JSON, ex: \x7b\x27title\x27: \x27product_name\x27\x7d.")
    else
      if (keptRows cols rows).map (·.1) = [] then
        (e, .error "Aucun produit valide trouvé dans le CSV.")
      else
        (buildEngine cols rows elapsedMs, .ok ())

/-! ## `search.py`: querying -/

/-- `_query_vector`: the query's TF vector over tokens present in the IDF
dict, and its norm. -/
noncomputable def queryVector (idf : String → Option ℝ) (qtokens : List String) :
    List (String × ℝ) × ℝ :=
  let total : ℝ := if qtokens.length = 0 then 1 else (qtokens.length : ℝ)
  let vec := (firstDedup qtokens).filterMap fun t =>
    (idf t).map fun w => (t, ((qtokens.count t : ℝ) / total) * w)
  (vec, vecNorm vec)

/-- The `continue` condition for the minimum-price filter. -/
def rejectPriceMin (minPrice : Option ℚ) (price : Option ℚ) : Bool :=
  match minPrice with
  | none => false
  | some m =>
    match price with
    | none => true
    | some v => v < m

/-- The `continue` condition for the maximum-price filter. -/
def rejectPriceMax (maxPrice : Option ℚ) (price : Option ℚ) : Bool :=
  match maxPrice with
  | none => false
  | some m =>
    match price with
    | none => true
    | some v => m < v

/-- The `continue` condition for the category filter (`if category and
product.get("category") != category`): an absent or empty filter rejects
nothing. -/
def rejectCategory (category : Option String) (pcat : String) : Bool :=
  match category with
  | none => false
  | some c => if c = "" then false else pcat ≠ c

/-- The `continue` condition for the minimum-rating filter. -/
def rejectRating (minRating : Option ℚ) (rating : Option ℚ) : Bool :=
  match minRating with
  | none => false
  | some m =>
    match rating with
    | none => true
    | some v => v < m

/-- A product survives all four filters. -/
def passesFilters (minPrice maxPrice : Option ℚ) (category : Option String)
    (minRating : Option ℚ) (p : Product) : Bool :=
  !rejectPriceMin minPrice p.price && !rejectPriceMax maxPrice p.price &&
    !rejectCategory category p.category && !rejectRating minRating p.rating

/-- `category_bonus`: 0.12 when a query token hits the tokenized category,
plus 0.08 when one hits the tokenized brand (empty fields are falsy). -/
noncomputable def categoryBonusOf (queryTokens : List String) (p : Product) : ℝ :=
  (if p.category ≠ "" ∧ ∃ t ∈ queryTokens, t ∈ tokenize p.category then
    (0.12 : ℝ) else 0) +
  (if p.brand ≠ "" ∧ ∃ t ∈ queryTokens, t ∈ tokenize p.brand then
    (0.08 : ℝ) else 0)

/-- `matched_tokens`: the sorted intersection of the query token set with
the whitespace-split searchable text. -/
def matchedTokensOf (queryTokens : List String) (searchableText : String) :
    List String :=
  sortedDedup (queryTokens.filter fun t =>
    t ∈ (splitOnChar ' ' searchableText).filter (· ≠ ""))

/-- The scoring of one surviving product inside the `search` loop. -/
noncomputable def scoreProduct (qtokens : List String) (qvec : List (String × ℝ))
    (qnorm : ℝ) (e : Engine) (idx : ℕ) (p : Product) : SearchResult :=
  let tfidf := cosineSimilarity qvec qnorm (e.docVectors.getD idx [])
    (e.docNorms.getD idx 0)
  let fuzzy : ℝ := ((fuzzyScore qtokens p.title : ℚ) : ℝ)
  let bonus := categoryBonusOf qtokens p
  { product := p
    score := 0.72 * tfidf + 0.22 * fuzzy + bonus
    tfidfScore := tfidf
    fuzzyScore := fuzzy
    categoryBonus := bonus
    matchedTokens := matchedTokensOf qtokens p.searchableText }

/-- `ProductSearchEngine.search`.  Wall-clock query latency is modelled as
0.  The result list is the surviving positively-scored products, sorted by
descending score (stable) and trimmed to `limit`. -/
noncomputable def search (e : Engine) (query : String)
    (minPrice maxPrice : Option ℚ) (category : Option String)
    (minRating : Option ℚ) (debug : Bool) (limit : ℕ) :
    List SearchResult × Diagnostics :=
  let qtokens := tokenize query
  let diag : Diagnostics :=
    { queryTokens := qtokens
      indexBuildMs := roundTo 2 e.lastIndexBuildMs
      queryTimeMs := 0
      totalProducts := e.products.length
      topScores := none }
  if qtokens = [] then ([], diag)
  else
    let qv := queryVector e.idf qtokens
    let results := e.products.enum.filterMap fun ip =>
      if passesFilters minPrice maxPrice category minRating ip.2 then
        let r := scoreProduct qtokens qv.1 qv.2 e ip.1 ip.2
        if r.score ≤ 0 then none else some r
      else none
    let sorted := results.mergeSort fun r s => !decide (r.score < s.score)
    let trimmed := sorted.take limit
    (trimmed,
      { diag with
        topScores :=
          if debug then
            some ((trimmed.take 5).map fun r =>
              (r.product.title, roundTo 4 r.score, roundTo 4 r.tfidfScore,
                roundTo 4 r.fuzzyScore, roundTo 4 r.categoryBonus))
          else none })

end RealDefs

/-! ## Projections of the load loop used to state claims about `id`s -/

/-- The source-row indices (0-based over *all* rows, skipped ones included)
of the rows `load_data` keeps: those whose stripped title is non-empty. -/
def keptIndices (cols : ColumnMap) (rows : List Row) : List ℕ :=
  rows.enum.filterMap fun ir =>
    if stripStr (fieldStr cols.title ir.2) ≠ "" then some ir.1 else none

/-! ## Concrete data for the witnesses -/

/-- A concrete product: title `"xx"`, price 10, rating 4, no category or
brand. -/
def pW : Product :=
  { id := 0, title := "xx", description := "", category := "", brand := "",
    price := some 10, rating := some 4, imageUrl := "", url := "",
    searchableText := "xx" }

/-- A concrete loaded one-product engine over `pW` (the token `"xx"` has
weight 1 and norm 1). -/
noncomputable def eW : Engine :=
  { products := [pW]
    docVectors := [[("xx", 1)]]
    docNorms := [1]
    idf := fun t => if t = "xx" then some 1 else none
    categories := []
    lastIndexBuildMs := 0 }

/-- An empty engine state (nothing loaded yet). -/
noncomputable def e0 : Engine :=
  { products := [], docVectors := [], docNorms := [], idf := fun _ => none,
    categories := [], lastIndexBuildMs := 0 }

/-- The search result `search eW "xx"` produces for `pW`. -/
noncomputable def rW : SearchResult :=
  scoreProduct ["xx"] (queryVector eW.idf ["xx"]).1 (queryVector eW.idf ["xx"]).2
    eW 0 pW

/-! ## Claim C9: comma handling in `parse_numeric` -/

/-- Number of digit characters after the first comma — the quantity the
claim's wording ("at most two digits after it") refers to.  The source
instead tests the length of the whole remainder after the comma
(`len(cleaned.split(",")[1]) <= 2`), digits or not. -/
def digitsAfterComma (s : String) : ℕ :=
  ((afterComma s).data.filter Char.isDigit).length

/-- Claim C9 as stated, specialised to one input: if the cleaned string has
a comma and no period, the comma is treated as a decimal separator exactly
when it is unique and followed by at most two digits, and otherwise all
commas are deleted. -/
def c9ClaimHolds (v : String) : Prop :=
  containsChar (preClean v) ',' ∧ ¬ containsChar (preClean v) '.' →
    parseNumeric (some v) =
      if ((preClean v).data.count ',') = 1 ∧ digitsAfterComma (preClean v) ≤ 2 then
        parseTail (replaceChar ',' '.' (preClean v))
      else
        parseTail (removeChar ',' (preClean v))

/-- C9, counterexample: on `"2,50€"` there is exactly one comma with two
digits after it, so the claim demands the decimal-separator reading (2.5),
but the code measures the length of the remainder `"50€"` (3 > 2), deletes
the comma and returns 250. -/
theorem c9_counterexample : ¬ c9ClaimHolds "2,50€" := by
  unfold c9ClaimHolds
  intro h
  have h2 := h (by decide)
  rw [if_pos (by decide)] at h2
  have hL : parseNumeric (some "2,50€") = some (((250 : ℕ) : ℚ)) := rfl
  have hR : parseTail (replaceChar ',' '.' (preClean "2,50€")) =
      some (((2 : ℕ) : ℚ) + ((50 : ℕ) : ℚ) / (10 : ℚ) ^ 2) := rfl
  rw [hL, hR] at h2
  have h3 := Option.some.inj h2
  norm_num at h3

/-- C9 (amended: the code treats the comma as a decimal separator exactly
when there is exactly one comma and at most two *characters* — digits or
not — after it; in particular `parse_numeric("2,50") = 2.5` and
`parse_numeric("2,500") = 2500`). -/
theorem c9_comma_rule :
    (∀ v : String,
      containsChar (preClean v) ',' = true → containsChar (preClean v) '.' = false →
      parseNumeric (some v) =
        if ((preClean v).data.count ',') = 1 ∧ (afterComma (preClean v)).length ≤ 2 then
          parseTail (replaceChar ',' '.' (preClean v))
        else
          parseTail (removeChar ',' (preClean v))) ∧
    parseNumeric (some "2,50") = some (5 / 2) ∧
    parseNumeric (some "2,500") = some 2500 := by
  refine ⟨fun v h1 h2 => ?_, ?_, ?_⟩
  · by_cases hr : stripStr v = ""
    · exfalso
      have hpc : preClean v = "" := by simp [preClean, hr, removeChar]
      rw [hpc] at h1
      exact absurd h1 (by decide)
    · show parseNumeric (some v) = _
      simp only [parseNumeric]
      rw [if_neg hr, if_pos ⟨h1, by simp [h2]⟩]
      exact apply_ite parseTail _ _ _
  · have h : parseNumeric (some "2,50") =
        some (((2 : ℕ) : ℚ) + ((50 : ℕ) : ℚ) / (10 : ℚ) ^ 2) := rfl
    rw [h]
    norm_num
  · have h : parseNumeric (some "2,500") = some (((2500 : ℕ) : ℚ)) := rfl
    rw [h]
    norm_num

/-- C9, witness: the amended rule applied at the concrete input `"2,50"`. -/
theorem c9_witness :
    parseNumeric (some "2,50") =
      if ((preClean "2,50").data.count ',') = 1 ∧ (afterComma (preClean "2,50")).length ≤ 2 then
        parseTail (replaceChar ',' '.' (preClean "2,50"))
      else
        parseTail (removeChar ',' (preClean "2,50")) :=
  c9_comma_rule.1 "2,50" (by decide) (by decide)

/-! ## Claim C5: the IDF table -/

/-- A token has zero document frequency exactly when no document holds it. -/
theorem docFreq_eq_zero_iff (docs : List (List String)) (t : String) :
    docFreq docs t = 0 ↔ ∀ d ∈ docs, t ∉ d := by
  simp [docFreq, List.length_eq_zero, List.filter_eq_nil_iff]

/-- Document frequency never exceeds the number of documents. -/
theorem docFreq_le_length (docs : List (List String)) (t : String) :
    docFreq docs t ≤ docs.length :=
  List.length_filter_le _ _

/-- C5: the IDF table built by `_build_tfidf` is defined exactly on the
tokens occurring in at least one document, maps each token `t` to
`ln((1 + N) / (1 + df(t))) + 1.0`, and every stored value is positive. -/
theorem c5_idf_table (docs : List (List String)) (t : String) :
    ((idfOf docs t).isSome ↔ ∃ d ∈ docs, t ∈ d) ∧
    ∀ v : ℝ, idfOf docs t = some v →
      v = Real.log ((1 + (docs.length : ℝ)) / (1 + (docFreq docs t : ℝ))) + 1 ∧
        0 < v := by
  constructor
  · unfold idfOf
    split
    · next h =>
      simp only [Option.isSome_none, Bool.false_eq_true, false_iff]
      rw [docFreq_eq_zero_iff] at h
      push_neg
      exact h
    · next h =>
      simp only [Option.isSome_some, true_iff]
      by_contra hc
      push_neg at hc
      exact h ((docFreq_eq_zero_iff docs t).mpr hc)
  · intro v hv
    unfold idfOf at hv
    split at hv
    · exact absurd hv (by simp)
    · next h =>
      have hveq : v = Real.log ((1 + (docs.length : ℝ)) / (1 + (docFreq docs t : ℝ))) + 1 :=
        (Option.some.injEq _ _ ▸ hv).symm
      refine ⟨hveq, ?_⟩
      have hdfpos : (0 : ℝ) < 1 + (docFreq docs t : ℝ) := by positivity
      have hdfle : (docFreq docs t : ℝ) ≤ (docs.length : ℝ) := by
        exact_mod_cast docFreq_le_length docs t
      have h1 : (1 : ℝ) ≤ (1 + (docs.length : ℝ)) / (1 + (docFreq docs t : ℝ)) := by
        rw [le_div_iff₀ hdfpos]
        linarith
      have hlog := Real.log_nonneg h1
      rw [hveq]
      linarith

/-- C5, witness: on the one-document corpus `[["ab"]]` the token `"ab"` is
in the table and its stored value is positive. -/
theorem c5_witness :
    0 < Real.log ((1 + (([["ab"]] : List (List String)).length : ℝ)) /
        (1 + (docFreq [["ab"]] "ab" : ℝ))) + 1 := by
  have h : idfOf [["ab"]] "ab" =
      some (Real.log ((1 + (([["ab"]] : List (List String)).length : ℝ)) /
        (1 + (docFreq [["ab"]] "ab" : ℝ))) + 1) := by
    unfold idfOf
    rw [if_neg (by decide)]
  exact ((c5_idf_table [["ab"]] "ab").2 _ h).2

/-! ## Claim C4: cosine similarity -/

/-- Association-list lookup of a key known to be present, under distinct
keys, returns the stored value. -/
theorem lookup_eq_some_of_mem {v : List (String × ℝ)}
    (hk : (v.map Prod.fst).Nodup) {p : String × ℝ} (hp : p ∈ v) :
    v.lookup p.1 = some p.2 := by
  induction v with
  | nil => cases hp
  | cons q v ih =>
    obtain ⟨qk, qv⟩ := q
    rcases List.mem_cons.mp hp with rfl | hp'
    · simp
    · have hne : p.1 ≠ qk := by
        intro he
        have hmem : qk ∈ v.map Prod.fst := by
          rw [← he]
          exact List.mem_map_of_mem Prod.fst hp'
        exact (List.nodup_cons.mp hk).1 hmem
      rw [List.lookup_cons]
      simp only [show (p.1 == qk) = false from beq_eq_false_iff_ne.mpr hne]
      exact ih (List.nodup_cons.mp hk).2 hp'

/-- A successful lookup yields a member pair. -/
theorem mem_of_lookup_eq_some {v : List (String × ℝ)} {t : String} {b : ℝ}
    (h : v.lookup t = some b) : (t, b) ∈ v := by
  induction v with
  | nil => simp at h
  | cons q v ih =>
    obtain ⟨qk, qv⟩ := q
    rw [List.lookup_cons] at h
    by_cases he : t = qk
    · subst he
      simp only [beq_self_eq_true] at h
      exact List.mem_cons.mpr (Or.inl (by simpa using congrArg (Prod.mk t) h.symm))
    · simp only [show (t == qk) = false from beq_eq_false_iff_ne.mpr he] at h
      exact List.mem_cons.mpr (Or.inr (ih h))

/-- `dict.get` with default 0 is nonnegative on a nonnegative vector. -/
theorem dictGet_nonneg {v : List (String × ℝ)} (hv : ∀ p ∈ v, 0 ≤ p.2)
    (t : String) : 0 ≤ dictGet v t := by
  unfold dictGet
  cases h : v.lookup t with
  | none => simp
  | some b => simpa using hv _ (mem_of_lookup_eq_some h)

/-- `dict.get` of an absent key is 0. -/
theorem dictGet_eq_zero {v : List (String × ℝ)} {t : String}
    (h : t ∉ v.map Prod.fst) : dictGet v t = 0 := by
  unfold dictGet
  rw [List.lookup_eq_none_iff.mpr]
  · rfl
  · intro p hp
    have hne : t ≠ p.1 := fun he => h (by
      rw [he]
      exact List.mem_map_of_mem Prod.fst hp)
    simpa using hne

/-- `dict.get` of a present key (distinct keys) is the stored value. -/
theorem dictGet_of_mem {v : List (String × ℝ)} (hk : (v.map Prod.fst).Nodup)
    {p : String × ℝ} (hp : p ∈ v) : dictGet v p.1 = p.2 := by
  unfold dictGet
  rw [lookup_eq_some_of_mem hk hp]
  rfl

/-- The squared norm is a sum of squares, hence nonnegative. -/
theorem vecNormSq_nonneg (v : List (String × ℝ)) : 0 ≤ vecNormSq v := by
  apply List.sum_nonneg
  intro x hx
  obtain ⟨p, _, rfl⟩ := List.mem_map.mp hx
  exact mul_self_nonneg _

/-- The dot product of the `_cosine_similarity` loop is bounded by the
product of the two Euclidean norms (Cauchy-Schwarz, plus the fact that the
document weights probed by the query keys form a sub-family of the
document vector's weights). -/
theorem dotProd_le_norm_mul_norm {qvec dvec : List (String × ℝ)}
    (hqk : (qvec.map Prod.fst).Nodup) (hdk : (dvec.map Prod.fst).Nodup) :
    dotProd qvec dvec ≤ vecNorm qvec * vecNorm dvec := by
  have hqnd : qvec.Nodup := hqk.of_map
  have hdnd : dvec.Nodup := hdk.of_map
  have hQ : dotProd qvec dvec =
      ∑ p ∈ qvec.toFinset, p.2 * dictGet dvec p.1 :=
    (List.sum_toFinset _ hqnd).symm
  have hCS := Real.sum_mul_le_sqrt_mul_sqrt qvec.toFinset
    (fun p => p.2) (fun p => dictGet dvec p.1)
  have hq2 : ∑ p ∈ qvec.toFinset, p.2 ^ 2 = vecNormSq qvec := by
    rw [show (fun p : String × ℝ => p.2 ^ 2) = fun p : String × ℝ => p.2 * p.2 by
      funext p; ring]
    exact List.sum_toFinset _ hqnd
  have hinjq : ∀ p ∈ qvec.toFinset, ∀ p' ∈ qvec.toFinset,
      p.1 = p'.1 → p = p' := by
    intro p hp p' hp' he
    exact List.inj_on_of_nodup_map hqk (List.mem_toFinset.mp hp)
      (List.mem_toFinset.mp hp') he
  have hinjd : ∀ p ∈ dvec.toFinset, ∀ p' ∈ dvec.toFinset,
      p.1 = p'.1 → p = p' := by
    intro p hp p' hp' he
    exact List.inj_on_of_nodup_map hdk (List.mem_toFinset.mp hp)
      (List.mem_toFinset.mp hp') he
  have hd2 : ∑ p ∈ qvec.toFinset, (dictGet dvec p.1) ^ 2 ≤ vecNormSq dvec := by
    have himg : ∑ t ∈ qvec.toFinset.image Prod.fst, (dictGet dvec t) ^ 2 =
        ∑ p ∈ qvec.toFinset, (dictGet dvec p.1) ^ 2 := Finset.sum_image hinjq
    rw [← himg]
    have hsub : ∑ t ∈ qvec.toFinset.image Prod.fst, (dictGet dvec t) ^ 2 =
        ∑ t ∈ (qvec.toFinset.image Prod.fst) ∩ (dvec.toFinset.image Prod.fst),
          (dictGet dvec t) ^ 2 := by
      refine (Finset.sum_subset Finset.inter_subset_left ?_).symm
      intro t ht htn
      have htd : t ∉ dvec.toFinset.image Prod.fst := fun hc =>
        htn (Finset.mem_inter.mpr ⟨ht, hc⟩)
      have hnotin : t ∉ dvec.map Prod.fst := by
        intro hc
        refine htd ?_
        obtain ⟨p, hp, rfl⟩ := List.mem_map.mp hc
        exact Finset.mem_image.mpr ⟨p, List.mem_toFinset.mpr hp, rfl⟩
      rw [dictGet_eq_zero hnotin]
      norm_num
    rw [hsub]
    calc ∑ t ∈ (qvec.toFinset.image Prod.fst) ∩ (dvec.toFinset.image Prod.fst),
          (dictGet dvec t) ^ 2
        ≤ ∑ t ∈ dvec.toFinset.image Prod.fst, (dictGet dvec t) ^ 2 :=
          Finset.sum_le_sum_of_subset_of_nonneg Finset.inter_subset_right
            (fun _ _ _ => sq_nonneg _)
      _ = ∑ p ∈ dvec.toFinset, (dictGet dvec p.1) ^ 2 :=
          Finset.sum_image hinjd
      _ = ∑ p ∈ dvec.toFinset, p.2 ^ 2 := by
          refine Finset.sum_congr rfl fun p hp => ?_
          rw [dictGet_of_mem hdk (List.mem_toFinset.mp hp)]
      _ = vecNormSq dvec := by
          rw [show (fun p : String × ℝ => p.2 ^ 2) =
            fun p : String × ℝ => p.2 * p.2 by funext p; ring]
          exact List.sum_toFinset _ hdnd
  calc dotProd qvec dvec
      = ∑ p ∈ qvec.toFinset, p.2 * dictGet dvec p.1 := hQ
    _ ≤ Real.sqrt (∑ p ∈ qvec.toFinset, p.2 ^ 2) *
        Real.sqrt (∑ p ∈ qvec.toFinset, (dictGet dvec p.1) ^ 2) := hCS
    _ ≤ vecNorm qvec * vecNorm dvec := by
        unfold vecNorm
        rw [hq2]
        exact mul_le_mul_of_nonneg_left (Real.sqrt_le_sqrt hd2)
          (Real.sqrt_nonneg _)

/-- C4: with the norms computed from the vectors (distinct keys,
nonnegative weights), `_cosine_similarity` lands in [0, 1]; it returns
exactly 0 whenever either supplied norm is 0 (so the division never runs
with a zero denominator); and it returns 1 on identical non-zero vectors. -/
theorem c4_cosine_similarity (qvec dvec : List (String × ℝ))
    (hqk : (qvec.map Prod.fst).Nodup) (hdk : (dvec.map Prod.fst).Nodup)
    (hq : ∀ p ∈ qvec, 0 ≤ p.2) (hd : ∀ p ∈ dvec, 0 ≤ p.2) :
    (0 ≤ cosineSimilarity qvec (vecNorm qvec) dvec (vecNorm dvec) ∧
      cosineSimilarity qvec (vecNorm qvec) dvec (vecNorm dvec) ≤ 1) ∧
    (∀ qn dn : ℝ, qn = 0 ∨ dn = 0 → cosineSimilarity qvec qn dvec dn = 0) ∧
    (qvec = dvec → vecNorm qvec ≠ 0 →
      cosineSimilarity qvec (vecNorm qvec) dvec (vecNorm dvec) = 1) := by
  refine ⟨?_, ?_, ?_⟩
  · by_cases hz : vecNorm qvec = 0 ∨ vecNorm dvec = 0
    · unfold cosineSimilarity
      rw [if_pos hz]
      norm_num
    · push_neg at hz
      have hqpos : 0 < vecNorm qvec := (Real.sqrt_nonneg _).lt_of_ne (Ne.symm hz.1)
      have hdpos : 0 < vecNorm dvec := (Real.sqrt_nonneg _).lt_of_ne (Ne.symm hz.2)
      unfold cosineSimilarity
      rw [if_neg (by push_neg; exact hz)]
      constructor
      · apply div_nonneg _ (le_of_lt (mul_pos hqpos hdpos))
        apply List.sum_nonneg
        intro x hx
        obtain ⟨p, hp, rfl⟩ := List.mem_map.mp hx
        exact mul_nonneg (hq p hp) (dictGet_nonneg hd _)
      · rw [div_le_one (mul_pos hqpos hdpos)]
        exact dotProd_le_norm_mul_norm hqk hdk
  · intro qn dn hz
    unfold cosineSimilarity
    rw [if_pos hz]
  · intro he hn
    subst he
    have hdot : dotProd qvec qvec = vecNormSq qvec := by
      unfold dotProd vecNormSq
      refine congrArg List.sum (List.map_congr_left fun p hp => ?_)
      rw [dictGet_of_mem hqk hp]
    have hsq : vecNormSq qvec ≠ 0 := by
      intro hc
      exact hn (by unfold vecNorm; rw [hc, Real.sqrt_zero])
    unfold cosineSimilarity
    rw [if_neg (by push_neg; exact ⟨hn, hn⟩)]
    rw [hdot]
    unfold vecNorm
    rw [Real.mul_self_sqrt (vecNormSq_nonneg _)]
    exact div_self hsq

/-- C4, witness: the concrete one-entry vector `[("a", 1)]` satisfies every
hypothesis and its self-similarity lies in [0, 1]. -/
theorem c4_witness :
    0 ≤ cosineSimilarity [("a", (1 : ℝ))] (vecNorm [("a", (1 : ℝ))])
        [("a", (1 : ℝ))] (vecNorm [("a", (1 : ℝ))]) ∧
      cosineSimilarity [("a", (1 : ℝ))] (vecNorm [("a", (1 : ℝ))])
        [("a", (1 : ℝ))] (vecNorm [("a", (1 : ℝ))]) ≤ 1 :=
  (c4_cosine_similarity [("a", (1 : ℝ))] [("a", (1 : ℝ))] (by simp) (by simp)
    (by intro p hp; simp at hp; simp [hp]) (by intro p hp; simp at hp; simp [hp])).1

/-! ## Claim C8: fuzzy score -/

/-- A common prefix is no longer than the first list. -/
theorem commonPrefixLen_le_left :
    ∀ xs ys : List Char, commonPrefixLen xs ys ≤ xs.length := by
  intro xs
  induction xs with
  | nil => intro ys; cases ys <;> simp [commonPrefixLen]
  | cons x xs ih =>
    intro ys
    cases ys with
    | nil => simp [commonPrefixLen]
    | cons y ys =>
      by_cases h : x = y
      · simpa [commonPrefixLen, h] using ih ys
      · simp [commonPrefixLen, h]

/-- A common prefix is no longer than the second list. -/
theorem commonPrefixLen_le_right :
    ∀ xs ys : List Char, commonPrefixLen xs ys ≤ ys.length := by
  intro xs
  induction xs with
  | nil => intro ys; cases ys <;> simp [commonPrefixLen]
  | cons x xs ih =>
    intro ys
    cases ys with
    | nil => simp [commonPrefixLen]
    | cons y ys =>
      by_cases h : x = y
      · simpa [commonPrefixLen, h] using ih ys
      · simp [commonPrefixLen, h]

/-- The common prefix of a list with itself is the whole list. -/
theorem commonPrefixLen_self : ∀ xs : List Char, commonPrefixLen xs xs = xs.length := by
  intro xs
  induction xs with
  | nil => rfl
  | cons x xs ih => simp [commonPrefixLen, ih]

/-- Any member bounds `foldr max 0` from below. -/
theorem le_foldrMax {l : List ℕ} {x : ℕ} (hx : x ∈ l) : x ≤ l.foldr max 0 := by
  induction l with
  | nil => cases hx
  | cons y l ih =>
    rcases List.mem_cons.mp hx with rfl | h
    · exact le_max_left _ _
    · exact le_trans (ih h) (le_max_right _ _)

/-- `foldr max 0` is bounded by any common upper bound. -/
theorem foldrMax_le {l : List ℕ} {c : ℕ} (h : ∀ x ∈ l, x ≤ c) :
    l.foldr max 0 ≤ c := by
  induction l with
  | nil => exact Nat.zero_le _
  | cons y l ih =>
    exact max_le (h y (List.mem_cons_self _ _)) (ih fun x hx => h x (List.mem_cons_of_mem _ hx))

/-- A non-zero `foldr max 0` is attained by some member. -/
theorem foldrMax_mem {l : List ℕ} (h : l.foldr max 0 ≠ 0) : l.foldr max 0 ∈ l := by
  induction l with
  | nil => exact absurd rfl h
  | cons y l ih =>
    rcases max_choice y (l.foldr max 0) with hc | hc
    · rw [List.foldr_cons, hc]
      exact List.mem_cons_self _ _
    · rw [List.foldr_cons, hc]
      rw [List.foldr_cons, hc] at h
      exact List.mem_cons_of_mem _ (ih h)

/-- A run ending at position `i` of `a` has size at most `i + 1`. -/
theorem runEndingAt_le_left (a b : List Char) (i j : ℕ) :
    runEndingAt a b i j ≤ i + 1 := by
  refine le_trans (commonPrefixLen_le_left _ _) ?_
  simp only [List.length_reverse, List.length_take]
  omega

/-- A run size never exceeds the length of `a`. -/
theorem runEndingAt_le_lenA (a b : List Char) (i j : ℕ) :
    runEndingAt a b i j ≤ a.length := by
  refine le_trans (commonPrefixLen_le_left _ _) ?_
  simp only [List.length_reverse, List.length_take]
  omega

/-- A run size never exceeds the length of `b`. -/
theorem runEndingAt_le_lenB (a b : List Char) (i j : ℕ) :
    runEndingAt a b i j ≤ b.length := by
  refine le_trans (commonPrefixLen_le_right _ _) ?_
  simp only [List.length_reverse, List.length_take]
  omega

/-- A run ending at position `j` of `b` has size at most `j + 1`. -/
theorem runEndingAt_le_right (a b : List Char) (i j : ℕ) :
    runEndingAt a b i j ≤ j + 1 := by
  refine le_trans (commonPrefixLen_le_right _ _) ?_
  simp only [List.length_reverse, List.length_take]
  omega

/-- Membership in the scan-order pair list. -/
theorem mem_blockPairs {a b : List Char} {p : ℕ × ℕ} :
    p ∈ blockPairs a b ↔ p.1 < a.length ∧ p.2 < b.length := by
  obtain ⟨i, j⟩ := p
  simp only [blockPairs, List.mem_flatMap, List.mem_map, List.mem_range]
  constructor
  · rintro ⟨i', hi', j', hj', he⟩
    obtain ⟨rfl, rfl⟩ := Prod.mk.injEq .. ▸ And.intro (congrArg Prod.fst he).symm
      (congrArg Prod.snd he).symm
    exact ⟨hi', hj'⟩
  · rintro ⟨hi, hj⟩
    exact ⟨i, hi, j, hj, rfl⟩

/-- A non-zero maximal run is attained at some scanned pair. -/
theorem exists_pair_of_maxRun_ne (a b : List Char) (h : maxRun a b ≠ 0) :
    ∃ p ∈ blockPairs a b, runEndingAt a b p.1 p.2 = maxRun a b := by
  have hm : maxRun a b ∈ (blockPairs a b).map fun p => runEndingAt a b p.1 p.2 :=
    foldrMax_mem h
  obtain ⟨p, hp, he⟩ := List.mem_map.mp hm
  exact ⟨p, hp, he⟩

/-- The block returned by `find_longest_match` has maximal size and stays
inside both strings. -/
theorem bestBlock_spec (a b : List Char) (h : (bestBlock a b).2.2 ≠ 0) :
    (bestBlock a b).2.2 = maxRun a b ∧
      (bestBlock a b).1 + (bestBlock a b).2.2 ≤ a.length ∧
      (bestBlock a b).2.1 + (bestBlock a b).2.2 ≤ b.length := by
  by_cases hk : maxRun a b = 0
  · exact absurd (by simp [bestBlock, hk]) h
  · obtain ⟨q, hq, hqrun⟩ := exists_pair_of_maxRun_ne a b hk
    obtain ⟨pf, hfind⟩ : ∃ pf, (blockPairs a b).find?
        (fun q => runEndingAt a b q.1 q.2 = maxRun a b) = some pf := by
      refine Option.isSome_iff_exists.mp (List.find?_isSome.mpr ⟨q, hq, ?_⟩)
      simpa using hqrun
    obtain ⟨i0, j0⟩ := pf
    have hpred : runEndingAt a b i0 j0 = maxRun a b := by
      simpa using List.find?_some hfind
    have hmem : (i0, j0) ∈ blockPairs a b := List.mem_of_find?_eq_some hfind
    have hia : i0 < a.length := (mem_blockPairs.mp hmem).1
    have hjb : j0 < b.length := (mem_blockPairs.mp hmem).2
    have hile : maxRun a b ≤ i0 + 1 := hpred ▸ runEndingAt_le_left a b i0 j0
    have hjle : maxRun a b ≤ j0 + 1 := hpred ▸ runEndingAt_le_right a b i0 j0
    have hble : bestBlock a b =
        (i0 + 1 - maxRun a b, j0 + 1 - maxRun a b, maxRun a b) := by
      simp [bestBlock, hk, hfind]
    rw [hble]
    refine ⟨rfl, ?_, ?_⟩
    · show i0 + 1 - maxRun a b + maxRun a b ≤ a.length
      omega
    · show j0 + 1 - maxRun a b + maxRun a b ≤ b.length
      omega

/-- The total matched count never exceeds the length of `a`. -/
theorem rMatchesAux_le_left :
    ∀ (fuel : ℕ) (a b : List Char), rMatchesAux fuel a b ≤ a.length := by
  intro fuel
  induction fuel with
  | zero => intro a b; simp [rMatchesAux]
  | succ fuel ih =>
    intro a b
    simp only [rMatchesAux]
    by_cases h : (bestBlock a b).2.2 = 0
    · simp [h]
    · rw [if_neg h]
      obtain ⟨-, hia, _⟩ := bestBlock_spec a b h
      have h1 := ih (a.take (bestBlock a b).1) (b.take (bestBlock a b).2.1)
      have h2 := ih (a.drop ((bestBlock a b).1 + (bestBlock a b).2.2))
        (b.drop ((bestBlock a b).2.1 + (bestBlock a b).2.2))
      rw [List.length_take] at h1
      rw [List.length_drop] at h2
      omega

/-- The total matched count never exceeds the length of `b`. -/
theorem rMatchesAux_le_right :
    ∀ (fuel : ℕ) (a b : List Char), rMatchesAux fuel a b ≤ b.length := by
  intro fuel
  induction fuel with
  | zero => intro a b; simp [rMatchesAux]
  | succ fuel ih =>
    intro a b
    simp only [rMatchesAux]
    by_cases h : (bestBlock a b).2.2 = 0
    · simp [h]
    · rw [if_neg h]
      obtain ⟨-, _, hjb⟩ := bestBlock_spec a b h
      have h1 := ih (a.take (bestBlock a b).1) (b.take (bestBlock a b).2.1)
      have h2 := ih (a.drop ((bestBlock a b).1 + (bestBlock a b).2.2))
        (b.drop ((bestBlock a b).2.1 + (bestBlock a b).2.2))
      rw [List.length_take] at h1
      rw [List.length_drop] at h2
      omega

/-- On two copies of the same non-empty string, `find_longest_match`
returns the whole string. -/
theorem bestBlock_self {s : List Char} (hs : s ≠ []) :
    bestBlock s s = (0, 0, s.length) := by
  have hn : 0 < s.length := List.length_pos.mpr hs
  have hdiag : runEndingAt s s (s.length - 1) (s.length - 1) = s.length := by
    unfold runEndingAt
    have h1 : s.length - 1 + 1 = s.length := by omega
    rw [h1, List.take_length, commonPrefixLen_self, List.length_reverse]
  have hmax : maxRun s s = s.length := by
    refine le_antisymm (foldrMax_le ?_) ?_
    · intro x hx
      obtain ⟨p, _, rfl⟩ := List.mem_map.mp hx
      exact runEndingAt_le_lenA s s p.1 p.2
    · refine le_foldrMax (List.mem_map.mpr ⟨(s.length - 1, s.length - 1), ?_, hdiag⟩)
      exact mem_blockPairs.mpr ⟨by omega, by omega⟩
  have hk : maxRun s s ≠ 0 := by omega
  obtain ⟨pf, hfind⟩ : ∃ pf, (blockPairs s s).find?
      (fun q => runEndingAt s s q.1 q.2 = maxRun s s) = some pf := by
    refine Option.isSome_iff_exists.mp (List.find?_isSome.mpr
      ⟨(s.length - 1, s.length - 1), ?_, ?_⟩)
    · exact mem_blockPairs.mpr ⟨by omega, by omega⟩
    · simp [hdiag, hmax]
  obtain ⟨i0, j0⟩ := pf
  have hmem : (i0, j0) ∈ blockPairs s s := List.mem_of_find?_eq_some hfind
  have hia : i0 < s.length := (mem_blockPairs.mp hmem).1
  have hjb : j0 < s.length := (mem_blockPairs.mp hmem).2
  have hble : bestBlock s s = (i0 + 1 - maxRun s s, j0 + 1 - maxRun s s, maxRun s s) := by
    simp [bestBlock, if_neg hk, hfind]
  rw [hble]
  simp only [Prod.mk.injEq]
  omega

/-- No fuel or no strings: the matcher reports zero matches. -/
theorem rMatchesAux_nil (fuel : ℕ) : rMatchesAux fuel [] [] = 0 := by
  cases fuel with
  | zero => rfl
  | succ fuel => rfl

/-- Identical strings match completely. -/
theorem rMatches_self (s : List Char) : rMatches s s = s.length := by
  rcases eq_or_ne s [] with rfl | hs
  · rfl
  · have hn : 0 < s.length := List.length_pos.mpr hs
    obtain ⟨m, hm⟩ : ∃ m, s.length + s.length = m + 1 := ⟨s.length + s.length - 1, by omega⟩
    unfold rMatches
    rw [hm]
    simp only [rMatchesAux, bestBlock_self hs]
    rw [if_neg (by omega)]
    simp only [List.take_zero, Nat.zero_add, List.drop_length, rMatchesAux_nil]
    omega

/-- The ratio is nonnegative. -/
theorem smRatio_nonneg (a b : String) : 0 ≤ smRatio a b := by
  unfold smRatio
  split
  · norm_num
  · positivity

/-- The ratio is at most 1: the matched total is bounded by both lengths. -/
theorem smRatio_le_one (a b : String) : smRatio a b ≤ 1 := by
  unfold smRatio
  split
  · norm_num
  · next h =>
    have hM1 : rMatches a.data b.data ≤ a.length := rMatchesAux_le_left _ _ _
    have hM2 : rMatches a.data b.data ≤ b.length := rMatchesAux_le_right _ _ _
    have hpos : (0 : ℚ) < (a.length : ℚ) + (b.length : ℚ) := by
      have h0 : 0 < a.length + b.length := Nat.pos_of_ne_zero h
      exact_mod_cast h0
    rw [div_le_one hpos]
    have hsum : 2 * rMatches a.data b.data ≤ a.length + b.length := by omega
    exact_mod_cast hsum

/-- The ratio of any string with itself is 1. -/
theorem smRatio_refl (a : String) : smRatio a a = 1 := by
  unfold smRatio
  split
  · rfl
  · next h =>
    have hn : a.length ≠ 0 := by omega
    have hnq : (a.length : ℚ) ≠ 0 := by exact_mod_cast hn
    rw [rMatches_self]
    show (2 : ℚ) * (a.length : ℚ) / ((a.length : ℚ) + (a.length : ℚ)) = 1
    field_simp
    ring

/-- C8, counterexample to the symmetry part: for the query token set
`{exabcd}` against the title `"cdeab"` the matched blocks are `"ab"` and
`"e"` (total 3), but with the roles swapped the leftmost-longest tie-break
picks `"cd"` first, which kills the other matches (total 2): the ratios
are 6/11 and 4/11. -/
theorem c8_counterexample :
    fuzzyScore ["exabcd"] "cdeab" ≠ fuzzyScore ["cdeab"] "exabcd" := by
  have h1 : fuzzyScore ["exabcd"] "cdeab" =
      (2 : ℚ) * ((3 : ℕ) : ℚ) / (((6 : ℕ) : ℚ) + ((5 : ℕ) : ℚ)) := rfl
  have h2 : fuzzyScore ["cdeab"] "exabcd" =
      (2 : ℚ) * ((2 : ℕ) : ℚ) / (((5 : ℕ) : ℚ) + ((6 : ℕ) : ℚ)) := rfl
  rw [h1, h2]
  norm_num

/-- C8 (amended: the fuzzy score always lies in [0, 1] and equals 1 when
the deduplicated sorted query and title token sets are identical and
non-empty; the swap-symmetry part of the claim is false, see the
counterexample). -/
theorem c8_fuzzy_score (queryTokens : List String) (title : String) :
    (0 ≤ fuzzyScore queryTokens title ∧ fuzzyScore queryTokens title ≤ 1) ∧
    (sortedDedup queryTokens = sortedDedup (tokenize title) →
      sortedDedup queryTokens ≠ [] → fuzzyScore queryTokens title = 1) := by
  have hval : fuzzyScore queryTokens title =
      if tokenize title = [] then 0
      else smRatio (String.intercalate " " (sortedDedup queryTokens))
        (String.intercalate " " (sortedDedup (tokenize title))) := rfl
  constructor
  · rw [hval]
    split
    · norm_num
    · exact ⟨smRatio_nonneg _ _, smRatio_le_one _ _⟩
  · intro hset hne
    have htt : tokenize title ≠ [] := by
      intro hc
      apply hne
      rw [hset, hc]
      rfl
    rw [hval, if_neg htt, hset]
    exact smRatio_refl _

/-- C8, witness: on the query tokens `["ab"]` and the title `"ab"` the
token sets agree, so the fuzzy score is 1 (and in particular in [0, 1]). -/
theorem c8_witness : fuzzyScore ["ab"] "ab" = 1 :=
  (c8_fuzzy_score ["ab"] "ab").2 rfl (by decide)

/-! ## Claims C3, C6, C7, C10: the `search` method -/

/-- Elimination for membership in the returned result list: the product
passed every filter, the final score is the published linear blend of the
stored component scores, and it is strictly positive. -/
theorem mem_search_elim {e : Engine} {query : String} {minPrice maxPrice : Option ℚ}
    {category : Option String} {minRating : Option ℚ} {debug : Bool} {limit : ℕ}
    {s : SearchResult}
    (hs : s ∈ (search e query minPrice maxPrice category minRating debug limit).1) :
    passesFilters minPrice maxPrice category minRating s.product = true ∧
    s.score = 0.72 * s.tfidfScore + 0.22 * s.fuzzyScore + s.categoryBonus ∧
    0 < s.score := by
  by_cases hq : tokenize query = []
  · simp [search, hq] at hs
  · simp only [search] at hs
    rw [if_neg hq] at hs
    have hmem : s ∈ e.products.enum.filterMap fun ip =>
        if passesFilters minPrice maxPrice category minRating ip.2 then
          if (scoreProduct (tokenize query) (queryVector e.idf (tokenize query)).1
              (queryVector e.idf (tokenize query)).2 e ip.1 ip.2).score ≤ 0 then none
          else some (scoreProduct (tokenize query)
            (queryVector e.idf (tokenize query)).1
            (queryVector e.idf (tokenize query)).2 e ip.1 ip.2)
        else none :=
      List.mem_mergeSort.mp (List.mem_of_mem_take hs)
    obtain ⟨ip, hip, hf⟩ := List.mem_filterMap.mp hmem
    by_cases hp : passesFilters minPrice maxPrice category minRating ip.2 = true
    · rw [if_pos hp] at hf
      by_cases hsc : (scoreProduct (tokenize query)
          (queryVector e.idf (tokenize query)).1
          (queryVector e.idf (tokenize query)).2 e ip.1 ip.2).score ≤ 0
      · rw [if_pos hsc] at hf
        cases hf
      · rw [if_neg hsc] at hf
        obtain rfl := Option.some.inj hf
        exact ⟨hp, rfl, lt_of_not_le hsc⟩
    · rw [if_neg hp] at hf
      cases hf

/-- C3: every result returned by `search` carries
`score = 0.72 * tfidf + 0.22 * fuzzy + category_bonus`, and only products
with strictly positive final score appear. -/
theorem c3_final_score (e : Engine) (query : String) (minPrice maxPrice : Option ℚ)
    (category : Option String) (minRating : Option ℚ) (debug : Bool) (limit : ℕ)
    (r : SearchResult)
    (hr : r ∈ (search e query minPrice maxPrice category minRating debug limit).1) :
    r.score = 0.72 * r.tfidfScore + 0.22 * r.fuzzyScore + r.categoryBonus ∧
      0 < r.score :=
  ⟨(mem_search_elim hr).2.1, (mem_search_elim hr).2.2⟩

/-- C6: a query that tokenizes to nothing returns no results and the
diagnostics echo the empty token list, the corpus size and the rounded
last index build latency — no error is possible (the function is total). -/
theorem c6_empty_token_query (e : Engine) (query : String)
    (minPrice maxPrice : Option ℚ) (category : Option String)
    (minRating : Option ℚ) (debug : Bool) (limit : ℕ)
    (h : tokenize query = []) :
    search e query minPrice maxPrice category minRating debug limit =
      ([], { queryTokens := []
             indexBuildMs := roundTo 2 e.lastIndexBuildMs
             queryTimeMs := 0
             totalProducts := e.products.length
             topScores := none }) := by
  simp [search, h]

/-- C10: an empty-string category filter is Python-falsy, so it filters
exactly like an absent category filter: the two calls return identical
results (and diagnostics). -/
theorem c10_blank_category (e : Engine) (query : String)
    (minPrice maxPrice : Option ℚ) (minRating : Option ℚ) (debug : Bool)
    (limit : ℕ) :
    search e query minPrice maxPrice (some "") minRating debug limit =
      search e query minPrice maxPrice none minRating debug limit := rfl

/-- Pointwise-dominated partial maps produce no more elements. -/
theorem length_filterMap_le_of_sub {α β : Type _} (f g : α → Option β)
    (l : List α) (h : ∀ x, f x = none ∨ f x = g x) :
    (l.filterMap f).length ≤ (l.filterMap g).length := by
  induction l with
  | nil => simp
  | cons x l ih =>
    rcases h x with hf | hfg
    · rw [List.filterMap_cons, hf]
      cases hg : g x with
      | none => rw [List.filterMap_cons, hg]; exact ih
      | some b => rw [List.filterMap_cons, hg]; exact ih.trans (Nat.le_succ _)
    · rw [List.filterMap_cons, List.filterMap_cons, hfg]
      cases hg : g x with
      | none => exact ih
      | some b => exact Nat.succ_le_succ ih

/-- Raising the minimum-price bound only filters more. -/
theorem rejectPriceMin_mono {p p' : ℚ} (h : p ≤ p') {price : Option ℚ}
    (hr : rejectPriceMin (some p') price = false) :
    rejectPriceMin (some p) price = false := by
  cases price with
  | none => simp [rejectPriceMin] at hr
  | some v =>
    simp only [rejectPriceMin, decide_eq_false_iff_not, not_lt] at hr ⊢
    linarith

/-- Lowering the maximum-price bound only filters more. -/
theorem rejectPriceMax_anti {m m' : ℚ} (h : m' ≤ m) {price : Option ℚ}
    (hr : rejectPriceMax (some m') price = false) :
    rejectPriceMax (some m) price = false := by
  cases price with
  | none => simp [rejectPriceMax] at hr
  | some v =>
    simp only [rejectPriceMax, decide_eq_false_iff_not, not_lt] at hr ⊢
    linarith

/-- Raising the minimum-rating bound only filters more. -/
theorem rejectRating_mono {p p' : ℚ} (h : p ≤ p') {rating : Option ℚ}
    (hr : rejectRating (some p') rating = false) :
    rejectRating (some p) rating = false := by
  cases rating with
  | none => simp [rejectRating] at hr
  | some v =>
    simp only [rejectRating, decide_eq_false_iff_not, not_lt] at hr ⊢
    linarith

/-- A pointwise implication between filter predicates bounds the number of
returned results (the scoring of a product does not depend on the filter
arguments). -/
theorem search_length_le (e : Engine) (query : String)
    (mp xp : Option ℚ) (c : Option String) (mr : Option ℚ)
    (mp' xp' : Option ℚ) (c' : Option String) (mr' : Option ℚ)
    (debug : Bool) (limit : ℕ)
    (himp : ∀ pr : Product, passesFilters mp' xp' c' mr' pr = true →
      passesFilters mp xp c mr pr = true) :
    (search e query mp' xp' c' mr' debug limit).1.length ≤
      (search e query mp xp c mr debug limit).1.length := by
  by_cases hq : tokenize query = []
  · simp [search, hq]
  · simp only [search]
    rw [if_neg hq, if_neg hq]
    simp only [List.length_take, List.length_mergeSort]
    refine min_le_min_left _ ?_
    apply length_filterMap_le_of_sub
    intro ip
    by_cases hp : passesFilters mp' xp' c' mr' ip.2 = true
    · right
      rw [if_pos hp, if_pos (himp ip.2 hp)]
    · left
      rw [if_neg hp]

/-- C7: tightening a price or rating bound never increases the number of
returned results, and every returned product satisfies each active bound
(price within the given bounds, category equal to a given non-empty
category filter, rating at least the given minimum). -/
theorem c7_filter_monotone_sound (e : Engine) (query : String)
    (minPrice maxPrice : Option ℚ) (category : Option String)
    (minRating : Option ℚ) (debug : Bool) (limit : ℕ) :
    (∀ p p' : ℚ, p ≤ p' →
      (search e query (some p') maxPrice category minRating debug limit).1.length ≤
        (search e query (some p) maxPrice category minRating debug limit).1.length) ∧
    (∀ m m' : ℚ, m' ≤ m →
      (search e query minPrice (some m') category minRating debug limit).1.length ≤
        (search e query minPrice (some m) category minRating debug limit).1.length) ∧
    (∀ r r' : ℚ, r ≤ r' →
      (search e query minPrice maxPrice category (some r') debug limit).1.length ≤
        (search e query minPrice maxPrice category (some r) debug limit).1.length) ∧
    (∀ s ∈ (search e query minPrice maxPrice category minRating debug limit).1,
      (∀ pm : ℚ, minPrice = some pm → ∃ v, s.product.price = some v ∧ pm ≤ v) ∧
      (∀ pm : ℚ, maxPrice = some pm → ∃ v, s.product.price = some v ∧ v ≤ pm) ∧
      (∀ c : String, category = some c → c ≠ "" → s.product.category = c) ∧
      (∀ rm : ℚ, minRating = some rm → ∃ v, s.product.rating = some v ∧ rm ≤ v)) := by
  refine ⟨?_, ?_, ?_, ?_⟩
  · intro p p' hpp
    refine search_length_le e query (some p) maxPrice category minRating
      (some p') maxPrice category minRating debug limit fun pr hp => ?_
    simp only [passesFilters, Bool.and_eq_true, Bool.not_eq_true'] at hp ⊢
    exact ⟨⟨⟨rejectPriceMin_mono hpp hp.1.1.1, hp.1.1.2⟩, hp.1.2⟩, hp.2⟩
  · intro m m' hmm
    refine search_length_le e query minPrice (some m) category minRating
      minPrice (some m') category minRating debug limit fun pr hp => ?_
    simp only [passesFilters, Bool.and_eq_true, Bool.not_eq_true'] at hp ⊢
    exact ⟨⟨⟨hp.1.1.1, rejectPriceMax_anti hmm hp.1.1.2⟩, hp.1.2⟩, hp.2⟩
  · intro r r' hrr
    refine search_length_le e query minPrice maxPrice category (some r)
      minPrice maxPrice category (some r') debug limit fun pr hp => ?_
    simp only [passesFilters, Bool.and_eq_true, Bool.not_eq_true'] at hp ⊢
    exact ⟨⟨⟨hp.1.1.1, hp.1.1.2⟩, hp.1.2⟩, rejectRating_mono hrr hp.2⟩
  · intro s hs
    have hp := (mem_search_elim hs).1
    simp only [passesFilters, Bool.and_eq_true, Bool.not_eq_true'] at hp
    obtain ⟨⟨⟨h1, h2⟩, h3⟩, h4⟩ := hp
    refine ⟨?_, ?_, ?_, ?_⟩
    · rintro pm rfl
      cases hpr : s.product.price with
      | none => rw [hpr] at h1; simp [rejectPriceMin] at h1
      | some v =>
        rw [hpr] at h1
        simp only [rejectPriceMin, decide_eq_false_iff_not, not_lt] at h1
        exact ⟨v, rfl, h1⟩
    · rintro pm rfl
      cases hpr : s.product.price with
      | none => rw [hpr] at h2; simp [rejectPriceMax] at h2
      | some v =>
        rw [hpr] at h2
        simp only [rejectPriceMax, decide_eq_false_iff_not, not_lt] at h2
        exact ⟨v, rfl, h2⟩
    · rintro c rfl hc
      simp only [rejectCategory, if_neg hc, decide_eq_false_iff_not] at h3
      exact not_not.mp (by simpa using h3)
    · rintro rm rfl
      cases hpr : s.product.rating with
      | none => rw [hpr] at h4; simp [rejectRating] at h4
      | some v =>
        rw [hpr] at h4
        simp only [rejectRating, decide_eq_false_iff_not, not_lt] at h4
        exact ⟨v, rfl, h4⟩

/-! ## Claims C1, C2: `load_data` -/

/-- The ids of the kept products are exactly the source-row indices of
their rows (the `enumerate` counter, which also counts skipped rows). -/
theorem keptRows_map_id (cols : ColumnMap) (rows : List Row) :
    (keptRows cols rows).map (fun pr => pr.1.id) = keptIndices cols rows := by
  unfold keptRows keptIndices
  rw [List.map_filterMap]
  refine List.filterMap_congr fun ir _ => ?_
  obtain ⟨i, row⟩ := ir
  by_cases ht : stripStr (fieldStr cols.title row) = ""
  · simp [processRow, ht]
  · simp [processRow, ht]

/-- C1, counterexample: loading a CSV with header `title` and two rows —
the first with a blank title (skipped), the second titled `"abc"` —
succeeds with one kept product whose id is 1, not the dense value 0. -/
theorem c1_counterexample :
    (loadData e0 [] ["title"] [[("title", " ")], [("title", "abc")]] 0).2 =
      Except.ok () ∧
    (loadData e0 [] ["title"] [[("title", " ")], [("title", "abc")]]
      0).1.products.map Product.id = [1] ∧
    ([1] : List ℕ) ≠ List.range 1 :=
  ⟨rfl, rfl, by decide⟩

/-- C1 (amended: after a successful load the i-th kept product's id equals
the 0-based index of its source row among *all* rows — skipped rows still
consume ids — so the ids are the kept rows' source indices, dense from 0
only when no row before them was skipped). -/
theorem c1_product_ids (e : Engine) (override : List (String × String))
    (headers : List String) (rows : List Row) (elapsedMs : ℝ)
    (h : (loadData e override headers rows elapsedMs).2 = Except.ok ()) :
    (loadData e override headers rows elapsedMs).1.products.map Product.id =
      keptIndices (detectColumns headers override) rows := by
  simp only [loadData] at h ⊢
  by_cases h1 : headers = []
  · rw [if_pos h1] at h
    simp at h
  · rw [if_neg h1] at h ⊢
    by_cases h2 : truthy (detectColumns headers override).title = false
    · rw [if_pos h2] at h
      simp at h
    · rw [if_neg h2] at h ⊢
      by_cases h3 : (keptRows (detectColumns headers override) rows).map (·.1) = []
      · rw [if_pos h3] at h
        simp at h
      · rw [if_neg h3]
        show ((keptRows (detectColumns headers override) rows).map (·.1)).map
          Product.id = _
        rw [List.map_map]
        exact keptRows_map_id _ _

/-- C1, witness: with no skipped row the amended statement instantiates to
ids `[0, 1]` = kept source indices. -/
theorem c1_witness :
    (loadData e0 [] ["title"] [[("title", "ab")], [("title", "cd")]]
      0).1.products.map Product.id =
      keptIndices (detectColumns ["title"] [])
        [[("title", "ab")], [("title", "cd")]] :=
  c1_product_ids e0 [] ["title"] [[("title", "ab")], [("title", "cd")]] 0 rfl

/-- C2: a failed `load_data` leaves every engine field exactly as it was —
all three `raise` sites run before any assignment to `self`. -/
theorem c2_load_failure_atomic (e : Engine) (override : List (String × String))
    (headers : List String) (rows : List Row) (elapsedMs : ℝ) (msg : String)
    (h : (loadData e override headers rows elapsedMs).2 = Except.error msg) :
    (loadData e override headers rows elapsedMs).1.products = e.products ∧
    (loadData e override headers rows elapsedMs).1.docVectors = e.docVectors ∧
    (loadData e override headers rows elapsedMs).1.docNorms = e.docNorms ∧
    (loadData e override headers rows elapsedMs).1.idf = e.idf ∧
    (loadData e override headers rows elapsedMs).1.categories = e.categories ∧
    (loadData e override headers rows elapsedMs).1.lastIndexBuildMs =
      e.lastIndexBuildMs := by
  have he : (loadData e override headers rows elapsedMs).1 = e := by
    simp only [loadData] at h ⊢
    by_cases h1 : headers = []
    · rw [if_pos h1]
    · rw [if_neg h1] at h ⊢
      by_cases h2 : truthy (detectColumns headers override).title = false
      · rw [if_pos h2]
      · rw [if_neg h2] at h ⊢
        by_cases h3 : (keptRows (detectColumns headers override) rows).map (·.1) = []
        · rw [if_pos h3]
        · rw [if_neg h3] at h
          simp at h
  rw [he]
  exact ⟨rfl, rfl, rfl, rfl, rfl, rfl⟩

/-- C2, witness: loading an empty CSV (no headers) fails with the
descriptive header error and leaves the engine untouched. -/
theorem c2_witness :
    (loadData e0 [] [] [] 0).1.products = e0.products ∧
    (loadData e0 [] [] [] 0).1.docVectors = e0.docVectors ∧
    (loadData e0 [] [] [] 0).1.docNorms = e0.docNorms ∧
    (loadData e0 [] [] [] 0).1.idf = e0.idf ∧
    (loadData e0 [] [] [] 0).1.categories = e0.categories ∧
    (loadData e0 [] [] [] 0).1.lastIndexBuildMs = e0.lastIndexBuildMs :=
  c2_load_failure_atomic e0 [] [] [] 0
    "Le fichier CSV ne contient pas d\x27en-têtes de colonnes." rfl

/-! ## Evaluation of `search` on the concrete witness engine -/

/-- The query vector of `"xx"` against `eW`: one token of weight 1. -/
theorem queryVecW : (queryVector eW.idf ["xx"]).1 = [("xx", (1 : ℝ))] := by
  unfold queryVector
  simp only [eW, firstDedup, List.foldl]
  norm_num [List.filterMap_cons]

/-- Its norm is 1. -/
theorem queryNormW : (queryVector eW.idf ["xx"]).2 = 1 := by
  have h1 : (queryVector eW.idf ["xx"]).2 = vecNorm (queryVector eW.idf ["xx"]).1 :=
    rfl
  rw [h1, queryVecW]
  unfold vecNorm vecNormSq
  simp [Real.sqrt_one]

/-- Self-similarity of the one-token vector is 1. -/
theorem tfidfW : cosineSimilarity [("xx", (1 : ℝ))] 1 [("xx", (1 : ℝ))] 1 = 1 := by
  unfold cosineSimilarity
  rw [if_neg (by norm_num)]
  unfold dotProd dictGet
  simp

/-- The fuzzy score of `["xx"]` against the title `"xx"` is 1. -/
theorem fuzzyW : fuzzyScore ["xx"] "xx" = 1 := by
  have h : fuzzyScore ["xx"] "xx" =
      (2 : ℚ) * ((2 : ℕ) : ℚ) / (((2 : ℕ) : ℚ) + ((2 : ℕ) : ℚ)) := rfl
  rw [h]
  norm_num

/-- `pW` has no category and no brand, so no bonus. -/
theorem bonusW : categoryBonusOf ["xx"] pW = 0 := by
  unfold categoryBonusOf
  simp [pW]

/-- The final score of the witness result. -/
theorem rW_score : rW.score = 0.94 := by
  have h : rW.score =
      0.72 * cosineSimilarity (queryVector eW.idf ["xx"]).1
        (queryVector eW.idf ["xx"]).2 [("xx", (1 : ℝ))] 1 +
      0.22 * ((fuzzyScore ["xx"] "xx" : ℚ) : ℝ) + categoryBonusOf ["xx"] pW := rfl
  rw [h, queryVecW, queryNormW, tfidfW, fuzzyW, bonusW]
  norm_num

/-- `search eW "xx"` returns exactly the witness result. -/
theorem searchW_eval : (search eW "xx" none none none none false 30).1 = [rW] := by
  have hscore : ¬ rW.score ≤ 0 := by
    rw [rW_score]
    norm_num
  simp only [search]
  rw [show tokenize "xx" = ["xx"] from rfl]
  rw [if_neg (by simp : ¬ (["xx"] : List String) = [])]
  show ((eW.products.enum.filterMap fun ip =>
      if passesFilters none none none none ip.2 then
        if (scoreProduct ["xx"] (queryVector eW.idf ["xx"]).1
            (queryVector eW.idf ["xx"]).2 eW ip.1 ip.2).score ≤ 0 then none
        else some (scoreProduct ["xx"] (queryVector eW.idf ["xx"]).1
          (queryVector eW.idf ["xx"]).2 eW ip.1 ip.2)
      else none).mergeSort (fun r s => !decide (r.score < s.score))).take 30 = [rW]
  rw [show eW.products.enum = [((0 : ℕ), pW)] from rfl]
  simp only [List.filterMap_cons, List.filterMap_nil]
  rw [if_pos (show passesFilters none none none none pW = true from rfl)]
  rw [show scoreProduct ["xx"] (queryVector eW.idf ["xx"]).1
    (queryVector eW.idf ["xx"]).2 eW 0 pW = rW from rfl]
  rw [if_neg hscore]
  simp

/-- C3, witness: applying the blend-and-positivity theorem at the concrete
engine `eW`, query `"xx"` and its one returned result. -/
theorem c3_witness :
    rW.score = 0.72 * rW.tfidfScore + 0.22 * rW.fuzzyScore + rW.categoryBonus ∧
      0 < rW.score :=
  c3_final_score eW "xx" none none none none false 30 rW
    (by rw [searchW_eval]; exact List.mem_singleton_self rW)

/-- C6, witness: the all-stopword query `"le la de"` tokenizes to nothing
and returns an empty result list with the echoed diagnostics. -/
theorem c6_witness :
    search eW "le la de" none none none none false 30 =
      ([], { queryTokens := []
             indexBuildMs := roundTo 2 eW.lastIndexBuildMs
             queryTimeMs := 0
             totalProducts := eW.products.length
             topScores := none }) :=
  c6_empty_token_query eW "le la de" none none none none false 30 rfl

/-- C7, witness: raising the minimum price from 5 to 20 cannot increase
the number of results on the concrete engine `eW`. -/
theorem c7_witness :
    (search eW "xx" (some 20) none none none false 30).1.length ≤
      (search eW "xx" (some 5) none none none false 30).1.length :=
  (c7_filter_monotone_sound eW "xx" none none none none false 30).1 5 20
    (by norm_num)

end SearchEngine
